import Mathlib

/-!
Shallow embedding of the `client-rust` service-binding library
(`src/secret.rs`, `src/binding.rs`, `src/bindings.rs`).

Modelling conventions:
* byte sequences are `List Nat` (each entry a byte value);
* Rust `Option<T>` is `Option T`;
* a Rust function that can panic (an `unwrap` on `None`/`Err`) is modelled
  with an outer `Option`: `none` means the call panics, `some r` means it
  returns `r`;
* the filesystem is passed explicitly as data (`FileSys`, `RootFs`);
* `OsString` file names are modelled as `Option String`: `some s` is a name
  that is valid UTF-8 with content `s`, `none` is a non-UTF-8 name
  (so `to_str` on it is exactly the modelled `Option`).
-/

set_option autoImplicit false

/-- Bytes of a file or map entry (`Vec<u8>`), each entry one byte value. -/
abbrev ByteSeq := List Nat

/-! ## `src/secret.rs`: key validation -/

/-- Membership in the regex character class `[A-Za-z0-9\-_.]`. -/
def isValidSecretKeyChar (c : Char) : Bool :=
  (Char.ofNat 65 ≤ c && c ≤ Char.ofNat 90) ||
  (Char.ofNat 97 ≤ c && c ≤ Char.ofNat 122) ||
  (Char.ofNat 48 ≤ c && c ≤ Char.ofNat 57) ||
  c = Char.ofNat 45 || c = Char.ofNat 95 || c = Char.ofNat 46

/-- Embedding of `is_valid_secret_key`: the anchored regex
`^[A-Za-z0-9\-_.]+$` matches iff the string is non-empty and every
character is in the class. -/
def is_valid_secret_key (key : String) : Bool :=
  !key.data.isEmpty && key.data.all isValidSecretKeyChar

/-! ## Character and string helpers used by `str` methods in the source -/

/-- Rust `u8::to_ascii_lowercase` / `char::to_ascii_lowercase`. -/
def toAsciiLower (c : Char) : Char :=
  if Char.ofNat 65 ≤ c && c ≤ Char.ofNat 90 then Char.ofNat (c.toNat + 32) else c

/-- Rust `str::eq_ignore_ascii_case`: equality after ASCII lowercasing. -/
def eq_ignore_ascii_case (a b : String) : Bool :=
  a.data.map toAsciiLower == b.data.map toAsciiLower

/-- Rust `char::is_whitespace` (the Unicode `White_Space` property). -/
def rustIsWhitespace (c : Char) : Bool :=
  (9 ≤ c.toNat && c.toNat ≤ 13) || c.toNat = 32 || c.toNat = 133 ||
  c.toNat = 160 || c.toNat = 5760 || (8192 ≤ c.toNat && c.toNat ≤ 8202) ||
  c.toNat = 8232 || c.toNat = 8233 || c.toNat = 8239 || c.toNat = 8287 ||
  c.toNat = 12288

/-- Rust `str::trim`: drop leading and trailing whitespace characters. -/
def rustTrim (s : String) : String :=
  String.mk (((s.data.dropWhile rustIsWhitespace).reverse.dropWhile
    rustIsWhitespace).reverse)

/-! ## UTF-8 decoding (`str::from_utf8`) -/

/-- A UTF-8 continuation byte (`0x80..=0xBF`). -/
def isUtf8Cont (b : Nat) : Bool := 128 ≤ b && b ≤ 191

/-- Allowed first continuation byte after a three-byte leader, which
excludes overlong encodings (leader `0xE0`) and surrogates (leader `0xED`). -/
def utf8Cont3Ok (b b1 : Nat) : Bool :=
  if b = 224 then 160 ≤ b1 && b1 ≤ 191
  else if b = 237 then 128 ≤ b1 && b1 ≤ 159
  else isUtf8Cont b1

/-- Allowed first continuation byte after a four-byte leader, which
excludes overlong encodings (leader `0xF0`) and code points past
`0x10FFFF` (leader `0xF4`). -/
def utf8Cont4Ok (b b1 : Nat) : Bool :=
  if b = 240 then 144 ≤ b1 && b1 ≤ 191
  else if b = 244 then 128 ≤ b1 && b1 ≤ 143
  else isUtf8Cont b1

/-- Strict UTF-8 decoding of a byte sequence, as validated by Rust's
`str::from_utf8`: rejects overlong forms, surrogates, and out-of-range
code points. Returns `none` exactly when the bytes are not valid UTF-8. -/
def utf8DecodeChars : List Nat → Option (List Char)
  | [] => some []
  | b :: bs =>
    if b ≤ 127 then
      (utf8DecodeChars bs).map (fun cs => Char.ofNat b :: cs)
    else if 194 ≤ b && b ≤ 223 then
      match bs with
      | b1 :: bs1 =>
        if isUtf8Cont b1 then
          (utf8DecodeChars bs1).map
            (fun cs => Char.ofNat ((b - 192) * 64 + (b1 - 128)) :: cs)
        else none
      | [] => none
    else if 224 ≤ b && b ≤ 239 then
      match bs with
      | b1 :: b2 :: bs2 =>
        if utf8Cont3Ok b b1 && isUtf8Cont b2 then
          (utf8DecodeChars bs2).map
            (fun cs =>
              Char.ofNat ((b - 224) * 4096 + (b1 - 128) * 64 + (b2 - 128)) :: cs)
        else none
      | _ => none
    else if 240 ≤ b && b ≤ 244 then
      match bs with
      | b1 :: b2 :: b3 :: bs3 =>
        if utf8Cont4Ok b b1 && isUtf8Cont b2 && isUtf8Cont b3 then
          (utf8DecodeChars bs3).map
            (fun cs =>
              Char.ofNat ((b - 240) * 262144 + (b1 - 128) * 4096 +
                (b2 - 128) * 64 + (b3 - 128)) :: cs)
        else none
      | _ => none
    else none

/-- UTF-8 decoding to a `String` (`str::from_utf8` as an `Option`). -/
def utf8Decode (bs : ByteSeq) : Option String :=
  (utf8DecodeChars bs).map String.mk

/-! ## `src/binding.rs`: the `Binding` trait -/

/-- Embedding of `InvalidBindingError`. -/
structure InvalidBindingError where
  message : String
deriving DecidableEq, Repr

/-- The key for the provider of a `Binding` (`PROVIDER`). -/
def PROVIDER : String := "provider"

/-- The key for the type of a `Binding` (`TYPE`). -/
def TYPE : String := "type"

/-- A `Binding` trait object: its two primitive operations. `get_as_bytes`
is the content lookup (pure in this model), `get_name` the binding's name. -/
structure Binding where
  get_as_bytes : String → Option ByteSeq
  get_name : String

/-- Default trait method `Binding::get`: delegate to `get_as_bytes`,
UTF-8-decode (`.unwrap()`: outer `none` models the panic on invalid
UTF-8) and trim. -/
def Binding.get (b : Binding) (key : String) : Option (Option String) :=
  match b.get_as_bytes key with
  | none => some none
  | some bs =>
    match utf8Decode bs with
    | none => none
    | some s => some (some (rustTrim s))

/-- Default trait method `Binding::get_provider`. -/
def Binding.get_provider (b : Binding) : Option (Option String) :=
  b.get PROVIDER

/-- Default trait method `Binding::get_type`: a missing `type` key becomes
an `InvalidBindingError`. Outer `none` models a panic inside `get`. -/
def Binding.get_type (b : Binding) : Option (Except InvalidBindingError String) :=
  match b.get TYPE with
  | none => none
  | some none => some (Except.error ⟨"binding does not contain a type"⟩)
  | some (some t) => some (Except.ok t)

/-! ## `HashMapBinding` -/

/-- Embedding of `HashMapBinding` as a `Binding`: the map content is a
function from key to optional bytes (`HashMap<String, Vec<u8>>`). Its
`get_as_bytes` rejects invalid keys, then checks `contains_key` and
returns the stored value. -/
def hashMapBinding (name : String) (content : String → Option ByteSeq) : Binding where
  get_as_bytes := fun key =>
    if !is_valid_secret_key key then none
    else
      match content key with
      | none => none
      | some v => some v
  get_name := name

/-! ## `ConfigTreeBinding` -/

/-- An abstract filesystem as seen by `ConfigTreeBinding::get_as_bytes`:
a path is its list of (normal) components; `readFile` is `fs::read`, with
`none` standing for an I/O error (`.ok()` turns it into absence). -/
structure FileSys where
  pathExists : List String → Bool
  is_file : List String → Bool
  readFile : List String → Option ByteSeq

/-- Embedding of `ConfigTreeBinding`: it owns only its root path,
modelled as the root's list of normal path components. -/
structure ConfigTreeBinding where
  root : List String

/-- Index of the last occurrence of a dot character in a list of
characters, if any. -/
def lastDotIdx : List Char → Option Nat
  | [] => none
  | c :: rest =>
    match lastDotIdx rest with
    | some i => some (i + 1)
    | none => if c = Char.ofNat 46 then some 0 else none

/-- Rust `Path::file_stem` applied to a file name: the whole name when it
contains no dot, or only a leading dot; otherwise the portion before the
final dot. -/
def rustFileStem (s : String) : String :=
  match lastDotIdx s.data with
  | none => s
  | some 0 => s
  | some i => String.mk (s.data.take i)

/-- Embedding of `ConfigTreeBinding::get_as_bytes` over an abstract
filesystem: invalid keys are rejected before any filesystem access, then
`root/key` must exist and be a regular file, and a failed read collapses
to absence. -/
def ConfigTreeBinding.get_as_bytes (fs : FileSys) (b : ConfigTreeBinding)
    (key : String) : Option ByteSeq :=
  if !is_valid_secret_key key then none
  else
    let p := b.root ++ [key]
    if !fs.pathExists p || !fs.is_file p then none
    else fs.readFile p

/-- Embedding of `ConfigTreeBinding::get_name`:
`root.file_stem().and_then(to_str).map(to_string).unwrap()`. The root's
components are UTF-8 strings in this model, so `to_str` always succeeds;
the outcome is `none` (panic) exactly when the root has no final normal
component. -/
def ConfigTreeBinding.get_name (b : ConfigTreeBinding) : Option String :=
  (b.root.getLast?).map rustFileStem

/-! ## `CacheBinding` -/

/-- Cache content of a `CacheBinding` (`HashMap<String, Vec<u8>>`),
modelled as an association list with most recent insertion first. -/
abbrev Cache := List (String × ByteSeq)

/-- Lookup in the cache association list. -/
def cacheLookup (c : Cache) (key : String) : Option ByteSeq :=
  match c with
  | [] => none
  | (k, v) :: rest => if k = key then some v else cacheLookup rest key

/-- Embedding of `CacheBinding::get_as_bytes` as a state transformer on
the cache: an occupied entry is returned without touching the delegate; a
vacant entry queries the delegate and stores the value only when one is
present. The returned triple is (result, new cache, whether the delegate
was invoked). -/
def cacheGetAsBytes (delegate : Binding) (c : Cache) (key : String) :
    Option ByteSeq × Cache × Bool :=
  match cacheLookup c key with
  | some v => (some v, c, false)
  | none =>
    match delegate.get_as_bytes key with
    | none => (none, c, true)
    | some w => (some w, (key, w) :: c, true)

/-- Run a sequence of `CacheBinding::get_as_bytes` calls, threading the
cache state, and return the final cache. -/
def cacheRun (delegate : Binding) (c : Cache) : List String → Cache
  | [] => c
  | k :: ks => cacheRun delegate (cacheGetAsBytes delegate c k).2.1 ks

/-! ## `src/bindings.rs`: collection operations -/

/-- Embedding of `find`: the first binding whose name equals the queried
name, ASCII-case-insensitively. -/
def find (bindings : List Binding) (name : String) : Option Binding :=
  bindings.find? (fun b => eq_ignore_ascii_case b.get_name name)

/-- The filter predicate of `filter_with_provider` applied to one binding:
`some true` keeps it, `some false` drops it, `none` is a panic (the
`get_type().unwrap()` on a binding without a type, or an invalid-UTF-8
panic from `get` inside `get_type`/`get_provider`). The provider check
runs only when the type check passes. -/
def providerCheck (provider : Option String) (b : Binding) : Option Bool :=
  match provider with
  | none => some true
  | some p =>
    match b.get_provider with
    | none => none
    | some none => some false
    | some (some q) => some (eq_ignore_ascii_case q p)

/-- Type check of `filter_with_provider` followed by the provider check,
mirroring the closure's early returns. -/
def filterPred (binding_type provider : Option String) (b : Binding) :
    Option Bool :=
  match binding_type with
  | none => providerCheck provider b
  | some t =>
    match b.get_type with
    | none => none
    | some (Except.error _) => none
    | some (Except.ok ty) =>
      if eq_ignore_ascii_case ty t then providerCheck provider b
      else some false

/-- Embedding of `filter_with_provider`: filter the sequence by the
predicate, propagating a panic (`none`) from any element. -/
def filter_with_provider (bindings : List Binding)
    (binding_type provider : Option String) : Option (List Binding) :=
  match bindings with
  | [] => some []
  | b :: rest =>
    match filterPred binding_type provider b with
    | none => none
    | some true => (filter_with_provider rest binding_type provider).map
        (fun l => b :: l)
    | some false => filter_with_provider rest binding_type provider

/-! ## `from` (directory discovery) -/

/-- A directory entry as observed by `from`: the child's file name
(`none` when the name is not valid UTF-8) and whether its path is a
directory. -/
structure DirEntryInfo where
  name : Option String
  isDir : Bool

/-- The root directory as observed by `from`: whether the root path
exists and is a directory, and the `read_dir` listing — outer `none` when
`read_dir` itself fails, and a `none` entry for an `Err` item of the
iterator. -/
structure RootFs where
  pathExists : Bool
  isDir : Bool
  entries : Option (List (Option DirEntryInfo))

/-- The `filter_map` body of `from` over the directory entries: `Err`
entries and non-directories are skipped, and each remaining child yields
a `HashMapBinding` named `c.file_name().to_str().unwrap()` with an empty
content map — `none` models the panic of that `unwrap` on a non-UTF-8
name. -/
def collectChildren : List (Option DirEntryInfo) → Option (List Binding)
  | [] => some []
  | none :: rest => collectChildren rest
  | some c :: rest =>
    if !c.isDir then collectChildren rest
    else
      match c.name with
      | none => none
      | some n => (collectChildren rest).map
          (fun l => hashMapBinding n (fun _ => none) :: l)

/-- Embedding of `from` (named `bindingsFrom` because `from` is a Lean
keyword): a missing or non-directory root, or a failed `read_dir`, yields
an empty collection; otherwise each direct child directory becomes a
placeholder `HashMapBinding`. Outer `none` is the `unwrap` panic on a
non-UTF-8 child name. -/
def bindingsFrom (fs : RootFs) : Option (List Binding) :=
  if !fs.pathExists || !fs.isDir then some []
  else
    match fs.entries with
    | none => some []
    | some es => collectChildren es

/-! ## Auxiliary definitions for the cache invariant and witnesses -/

/-- A cache is consistent with its delegate: every cached value is the
value the delegate returns for that key. -/
def cacheGood (d : Binding) (c : Cache) : Prop :=
  ∀ k v, cacheLookup c k = some v → d.get_as_bytes k = some v

/-- A concrete delegate binding used to exercise the cache lemmas: one
present key, everything else absent. -/
def stubDelegate : Binding :=
  hashMapBinding "test-name"
    (fun key => if key = "test-secret-key" then some [1, 2] else none)

/-! ## Helper lemmas -/

/-- Unfolding of the secret-key character class into its five cases. -/
theorem isValidSecretKeyChar_iff (c : Char) :
    isValidSecretKeyChar c = true ↔
      ('A' ≤ c ∧ c ≤ 'Z') ∨ ('a' ≤ c ∧ c ≤ 'z') ∨ ('0' ≤ c ∧ c ≤ '9') ∨
      c = '-' ∨ c = '_' ∨ c = '.' := by
  have hA : Char.ofNat 65 = 'A' := rfl
  have hZ : Char.ofNat 90 = 'Z' := rfl
  have ha : Char.ofNat 97 = 'a' := rfl
  have hz : Char.ofNat 122 = 'z' := rfl
  have h0 : Char.ofNat 48 = '0' := rfl
  have h9 : Char.ofNat 57 = '9' := rfl
  have hh : Char.ofNat 45 = '-' := rfl
  have hu : Char.ofNat 95 = '_' := rfl
  have hd : Char.ofNat 46 = '.' := rfl
  simp [isValidSecretKeyChar, hA, hZ, ha, hz, h0, h9, hh, hu, hd,
    and_assoc, or_assoc]

/-- A `HashMapBinding` over an empty map is absent at every key. -/
theorem hashMapBinding_empty_absent (n key : String) :
    (hashMapBinding n (fun _ => none)).get_as_bytes key = none := by
  by_cases h : is_valid_secret_key key = true <;>
    simp [hashMapBinding, h]

/-- `find?` returns the head of the first matching split. -/
theorem find_eq_first_match {α : Type} (p : α → Bool) (l₁ : List α) (b : α)
    (l₂ : List α) (h₁ : ∀ x ∈ l₁, p x = false) (h₂ : p b = true) :
    (l₁ ++ b :: l₂).find? p = some b := by
  induction l₁ with
  | nil => exact List.find?_cons_of_pos l₂ h₂
  | cons a t ih =>
    have ha : p a = false := h₁ a (List.mem_cons_self a t)
    have ht : ∀ x ∈ t, p x = false := fun x hx => h₁ x (List.mem_cons_of_mem a hx)
    rw [List.cons_append, List.find?_cons_of_neg _ (by simp [ha])]
    exact ih ht

/-- A successful `find?` matches its result and splits the list at the
first match. -/
theorem find_some_split {α : Type} (p : α → Bool) (l : List α) (b : α)
    (h : l.find? p = some b) :
    p b = true ∧ ∃ l₁ l₂, l = l₁ ++ b :: l₂ ∧ ∀ x ∈ l₁, p x = false := by
  induction l with
  | nil => simp [List.find?] at h
  | cons a t ih =>
    by_cases hp : p a = true
    · rw [List.find?_cons_of_pos _ hp] at h
      cases h
      exact ⟨hp, [], t, rfl, by simp⟩
    · have hf : p a = false := by simpa using hp
      rw [List.find?_cons_of_neg _ hp] at h
      obtain ⟨hb, l₁, l₂, rfl, hall⟩ := ih h
      refine ⟨hb, a :: l₁, l₂, rfl, ?_⟩
      intro x hx
      rcases List.mem_cons.mp hx with rfl | hx
      · exact hf
      · exact hall x hx

/-- The index of the last dot is an index into the list. -/
theorem lastDotIdx_lt_length (cs : List Char) (i : Nat)
    (h : lastDotIdx cs = some i) : i < cs.length := by
  induction cs generalizing i with
  | nil => simp [lastDotIdx] at h
  | cons c rest ih =>
    rw [lastDotIdx] at h
    cases hr : lastDotIdx rest with
    | some j =>
      rw [hr] at h
      injection h with h
      subst h
      exact Nat.succ_lt_succ (ih j hr)
    | none =>
      rw [hr] at h
      by_cases hc : c = Char.ofNat 46
      · rw [if_pos hc] at h
        injection h with h
        subst h
        exact Nat.succ_pos _
      · rw [if_neg hc] at h
        cases h

/-- One cache call never removes an existing cache entry. -/
theorem cacheLookup_after_get (d : Binding) (c : Cache) (k k2 : String)
    (v : ByteSeq) (h : cacheLookup c k = some v) :
    cacheLookup (cacheGetAsBytes d c k2).2.1 k = some v := by
  rw [cacheGetAsBytes]
  cases hl : cacheLookup c k2 with
  | some w => exact h
  | none =>
    cases hd : d.get_as_bytes k2 with
    | none => exact h
    | some w =>
      show cacheLookup ((k2, w) :: c) k = some v
      rw [cacheLookup]
      by_cases hk : k2 = k
      · subst hk
        rw [hl] at h
        cases h
      · rw [if_neg hk]
        exact h

/-- A whole sequence of cache calls never removes an existing cache entry. -/
theorem cacheLookup_run (d : Binding) (c : Cache) (ks : List String)
    (k : String) (v : ByteSeq) (h : cacheLookup c k = some v) :
    cacheLookup (cacheRun d c ks) k = some v := by
  induction ks generalizing c with
  | nil => exact h
  | cons k2 ks ih => exact ih _ (cacheLookup_after_get d c k k2 v h)

/-- The empty cache is consistent with any delegate. -/
theorem cacheGood_empty (d : Binding) : cacheGood d [] := by
  intro k v h
  simp [cacheLookup] at h

/-- One cache call preserves consistency with the delegate. -/
theorem cacheGood_step (d : Binding) (c : Cache) (k : String)
    (h : cacheGood d c) : cacheGood d (cacheGetAsBytes d c k).2.1 := by
  intro k2 v2 h2
  rw [cacheGetAsBytes] at h2
  cases hl : cacheLookup c k with
  | some v =>
    rw [hl] at h2
    exact h k2 v2 h2
  | none =>
    rw [hl] at h2
    cases hd : d.get_as_bytes k with
    | none =>
      rw [hd] at h2
      exact h k2 v2 h2
    | some w =>
      rw [hd] at h2
      replace h2 : cacheLookup ((k, w) :: c) k2 = some v2 := h2
      rw [cacheLookup] at h2
      by_cases hk : k = k2
      · rw [if_pos hk] at h2
        injection h2 with hw
        rw [← hk, hd, hw]
      · rw [if_neg hk] at h2
        exact h k2 v2 h2

/-- A whole sequence of cache calls preserves consistency with the
delegate. -/
theorem cacheGood_run (d : Binding) (c : Cache) (ks : List String)
    (h : cacheGood d c) : cacheGood d (cacheRun d c ks) := by
  induction ks generalizing c with
  | nil => exact h
  | cons k ks ih => exact ih _ (cacheGood_step d c k h)

/-- When every child directory has a UTF-8 name, the `filter_map` of
`from` returns normally: one placeholder binding per child directory, in
order, named by the child's basename, and absent at every key. -/
theorem collectChildren_spec (es : List (Option DirEntryInfo))
    (h : ∀ i, some i ∈ es → i.isDir = true → i.name ≠ none) :
    ∃ l, collectChildren es = some l
      ∧ l.map Binding.get_name =
          es.filterMap (fun e => e.bind (fun i => if i.isDir then i.name else none))
      ∧ ∀ b ∈ l, ∀ key, b.get_as_bytes key = none := by
  induction es with
  | nil => exact ⟨[], rfl, rfl, by simp⟩
  | cons e rest ih =>
    have hrest : ∀ i, some i ∈ rest → i.isDir = true → i.name ≠ none :=
      fun i hi => h i (List.mem_cons_of_mem _ hi)
    obtain ⟨l, hl, hmap, habs⟩ := ih hrest
    cases e with
    | none =>
      refine ⟨l, ?_, ?_, habs⟩
      · simpa [collectChildren] using hl
      · simpa using hmap
    | some i =>
      by_cases hd : i.isDir = true
      · cases hn : i.name with
        | none => exact absurd hn (h i (List.mem_cons_self _ _) hd)
        | some n =>
          refine ⟨hashMapBinding n (fun _ => none) :: l, ?_, ?_, ?_⟩
          · simp [collectChildren, hd, hn, hl]
          · simp [hmap, hd, hn, hashMapBinding]
          · intro b hb key
            rcases List.mem_cons.mp hb with rfl | hb
            · exact hashMapBinding_empty_absent n key
            · exact habs b hb key
      · have hdf : i.isDir = false := by simpa using hd
        refine ⟨l, ?_, ?_, habs⟩
        · simpa [collectChildren, hdf] using hl
        · simpa [hdf] using hmap

/-- A child directory with a non-UTF-8 name makes the `filter_map` of
`from` panic, wherever it sits in the listing. -/
theorem collectChildren_none_of_bad (es : List (Option DirEntryInfo))
    (i : DirEntryInfo) (hi : some i ∈ es) (hd : i.isDir = true)
    (hn : i.name = none) : collectChildren es = none := by
  induction es with
  | nil => cases hi
  | cons e rest ih =>
    rcases List.mem_cons.mp hi with he | he
    · rw [← he]
      simp [collectChildren, hd, hn]
    · have hr := ih he
      cases e with
      | none => simpa [collectChildren] using hr
      | some c =>
        by_cases hcd : c.isDir = true
        · cases hcn : c.name with
          | none => simp [collectChildren, hcd, hcn]
          | some n => simp [collectChildren, hcd, hcn, hr]
        · have hcf : c.isDir = false := by simpa using hcd
          simpa [collectChildren, hcf] using hr

/-! ## Claim theorems -/

/-- C5: for every `Binding`, `get_type` returns the `InvalidBindingError`
with exact message "binding does not contain a type" iff `get("type")` is
absent, otherwise returns `Ok` with exactly the value of `get("type")`;
and no other `Binding` operation turns a missing key into an error:
`get` on an absent key is plain absence and `get_provider` is just
`get("provider")`. -/
theorem C5_get_type_spec (b : Binding) :
    (b.get_type = some (Except.error ⟨"binding does not contain a type"⟩) ↔
      b.get TYPE = some none)
    ∧ (∀ t, b.get_type = some (Except.ok t) ↔ b.get TYPE = some (some t))
    ∧ (∀ key, b.get_as_bytes key = none → b.get key = some none)
    ∧ b.get_provider = b.get PROVIDER := by
  refine ⟨?_, ?_, ?_, rfl⟩
  · cases h : b.get TYPE with
    | none => simp [Binding.get_type, h]
    | some o => cases o <;> simp [Binding.get_type, h]
  · intro t
    cases h : b.get TYPE with
    | none => simp [Binding.get_type, h]
    | some o => cases o <;> simp [Binding.get_type, h]
  · intro key h
    simp [Binding.get, h]

/-- C5 witness: a `HashMapBinding` with empty content has no `type` key,
so `get_type` is exactly the declared error, and a missing key read
through `get` is plain absence. -/
theorem C5_witness :
    (hashMapBinding "test-name" (fun _ => none)).get_type =
      some (Except.error ⟨"binding does not contain a type"⟩) ∧
    (hashMapBinding "test-name" (fun _ => none)).get "test-missing-key" =
      some none :=
  ⟨(C5_get_type_spec (hashMapBinding "test-name" (fun _ => none))).1.mpr
      (by decide),
   (C5_get_type_spec (hashMapBinding "test-name" (fun _ => none))).2.2.1
      "test-missing-key" (by decide)⟩

/-- C6: `is_valid_secret_key` accepts exactly the non-empty strings whose
characters are ASCII letters, digits, hyphen, underscore or dot, and is a
pure total function. -/
theorem C6_is_valid_secret_key_spec (key : String) :
    is_valid_secret_key key = true ↔
      key ≠ "" ∧ ∀ c ∈ key.data,
        ('A' ≤ c ∧ c ≤ 'Z') ∨ ('a' ≤ c ∧ c ≤ 'z') ∨ ('0' ≤ c ∧ c ≤ '9') ∨
        c = '-' ∨ c = '_' ∨ c = '.' := by
  rw [is_valid_secret_key, Bool.and_eq_true, List.all_eq_true]
  constructor
  · rintro ⟨h1, h2⟩
    constructor
    · intro hk
      subst hk
      exact absurd h1 (by decide)
    · intro c hc
      exact (isValidSecretKeyChar_iff c).mp (h2 c hc)
  · rintro ⟨h1, h2⟩
    constructor
    · cases hd : key.data with
      | nil => exact absurd (String.ext hd) h1
      | cons c t => rfl
    · intro c hc
      exact (isValidSecretKeyChar_iff c).mpr (h2 c hc)

/-- C6 witness: a key from the source's valid list is accepted and the
caret-containing key is rejected. -/
theorem C6_witness :
    is_valid_secret_key "india.juliet" = true ∧
    is_valid_secret_key "test^invalid^key" = false :=
  ⟨(C6_is_valid_secret_key_spec "india.juliet").mpr
      ⟨by decide, by decide⟩,
   by decide⟩

/-- C7: `get` is absence-preserving and, on present values whose bytes
are valid UTF-8, returns the decoded string trimmed of leading and
trailing whitespace. -/
theorem C7_get_decodes_and_trims (b : Binding) (key : String) :
    (b.get_as_bytes key = none → b.get key = some none)
    ∧ (∀ bs s, b.get_as_bytes key = some bs → utf8Decode bs = some s →
        b.get key = some (some (rustTrim s))) := by
  constructor
  · intro h
    simp [Binding.get, h]
  · intro bs s h1 h2
    simp [Binding.get, h1, h2]

/-- C7 witness: the map entry `"a" ↦ b"v\n"` reads back raw through
`get_as_bytes` and as the trimmed decoded text `"v"` through `get`. -/
theorem C7_witness :
    (hashMapBinding "n" (fun k => if k = "a" then some [118, 10] else none)).get_as_bytes
      "a" = some [118, 10] ∧
    utf8Decode [118, 10] = some "v\n" ∧
    (hashMapBinding "n" (fun k => if k = "a" then some [118, 10] else none)).get
      "a" = some (some (rustTrim "v\n")) ∧
    rustTrim "v\n" = "v" :=
  ⟨by decide, by decide,
   (C7_get_decodes_and_trims
      (hashMapBinding "n" (fun k => if k = "a" then some [118, 10] else none))
      "a").2 [118, 10] "v\n" (by decide) (by decide),
   by decide⟩

/-- C8: a key failing validation resolves to absent on both store-backed
bindings, for every backing store — so without consulting the store, and
even when a matching entry or file exists. -/
theorem C8_invalid_key_absent (key : String)
    (h : is_valid_secret_key key = false) :
    (∀ (fs : FileSys) (b : ConfigTreeBinding),
        ConfigTreeBinding.get_as_bytes fs b key = none)
    ∧ (∀ (name : String) (content : String → Option ByteSeq),
        (hashMapBinding name content).get_as_bytes key = none) := by
  constructor
  · intro fs b
    simp [ConfigTreeBinding.get_as_bytes, h]
  · intro n content
    simp [hashMapBinding, h]

/-- C8 witness: the invalid key `"test^invalid^key"` resolves to absent
on a filesystem where every path exists, is a file and reads bytes, and
on a map that contains every key. -/
theorem C8_witness :
    is_valid_secret_key "test^invalid^key" = false ∧
    ConfigTreeBinding.get_as_bytes
      ⟨fun _ => true, fun _ => true, fun _ => some [1]⟩
      ⟨["testdata", "test-k8s"]⟩ "test^invalid^key" = none ∧
    (hashMapBinding "test-name" (fun _ => some [2])).get_as_bytes
      "test^invalid^key" = none :=
  ⟨by decide,
   (C8_invalid_key_absent "test^invalid^key" (by decide)).1
      ⟨fun _ => true, fun _ => true, fun _ => some [1]⟩
      ⟨["testdata", "test-k8s"]⟩,
   (C8_invalid_key_absent "test^invalid^key" (by decide)).2
      "test-name" (fun _ => some [2])⟩

/-- C9: `find` returns the first binding in sequence order whose name
matches the queried name ASCII-case-insensitively, and `none` when no
binding matches; the comparison is equality after ASCII lowercasing. -/
theorem C9_find_first_case_insensitive (bindings : List Binding) (name : String) :
    (find bindings name = none ↔
      ∀ b ∈ bindings, eq_ignore_ascii_case b.get_name name = false)
    ∧ (∀ l₁ b l₂, bindings = l₁ ++ b :: l₂ →
        (∀ x ∈ l₁, eq_ignore_ascii_case x.get_name name = false) →
        eq_ignore_ascii_case b.get_name name = true →
        find bindings name = some b)
    ∧ (∀ b, find bindings name = some b →
        eq_ignore_ascii_case b.get_name name = true ∧
        ∃ l₁ l₂, bindings = l₁ ++ b :: l₂ ∧
          ∀ x ∈ l₁, eq_ignore_ascii_case x.get_name name = false)
    ∧ (∀ a bstr : String, eq_ignore_ascii_case a bstr = true ↔
        a.data.map toAsciiLower = bstr.data.map toAsciiLower) := by
  refine ⟨?_, ?_, ?_, ?_⟩
  · rw [find, List.find?_eq_none]
    constructor
    · intro h b hb
      simpa using h b hb
    · intro h b hb
      simp [h b hb]
  · intro l₁ b l₂ hsplit hmiss hhit
    rw [find, hsplit]
    exact find_eq_first_match _ l₁ b l₂ hmiss hhit
  · intro b h
    rw [find] at h
    obtain ⟨hb, hsplit⟩ :=
      find_some_split (fun x => eq_ignore_ascii_case x.get_name name)
        bindings b h
    exact ⟨hb, hsplit⟩
  · intro a bstr
    simp [eq_ignore_ascii_case]

/-- C9 witness: a binding named "Test-Name" is found by querying
"test-name". -/
theorem C9_witness :
    find [hashMapBinding "Test-Name" (fun _ => none)] "test-name" =
      some (hashMapBinding "Test-Name" (fun _ => none)) :=
  (C9_find_first_case_insensitive
      [hashMapBinding "Test-Name" (fun _ => none)] "test-name").2.1
    [] (hashMapBinding "Test-Name" (fun _ => none)) [] rfl
    (by simp) (by decide)

/-- C1 counterexample: filtering a binding that declares no type with a
type filter does not exclude it and return normally — the
`get_type().unwrap()` panics (modelled as `none`). -/
theorem C1_counterexample :
    (hashMapBinding "test-name" (fun _ => none)).get_type =
      some (Except.error ⟨"binding does not contain a type"⟩) ∧
    filter_with_provider [hashMapBinding "test-name" (fun _ => none)]
      (some "test-type") none = none := by
  exact ⟨rfl, rfl⟩

/-- C1 (amended): when a type filter is given, a binding whose
`get_type()` errors makes `filter_with_provider` panic on the unwrap
rather than being excluded; when no type filter is given, types are never
queried and the call returns normally (with no provider filter, it
returns the input unchanged). -/
theorem C1_filter_unwraps_missing_type :
    (∀ (b : Binding) (rest : List Binding) (t : String)
        (provider : Option String) (e : InvalidBindingError),
        b.get_type = some (Except.error e) →
        filter_with_provider (b :: rest) (some t) provider = none)
    ∧ ∀ bindings : List Binding,
        filter_with_provider bindings none none = some bindings := by
  constructor
  · intro b rest t provider e h
    simp [filter_with_provider, filterPred, h]
  · intro bindings
    induction bindings with
    | nil => rfl
    | cons b rest ih =>
      simp [filter_with_provider, filterPred, providerCheck, ih]

/-- C1 witness: a concrete binding without a type panics under a type
filter and passes through unchanged without one. -/
theorem C1_witness :
    filter_with_provider [hashMapBinding "n" (fun _ => none)]
      (some "t") none = none ∧
    filter_with_provider [hashMapBinding "n" (fun _ => none)] none none =
      some [hashMapBinding "n" (fun _ => none)] :=
  ⟨C1_filter_unwraps_missing_type.1 (hashMapBinding "n" (fun _ => none)) []
      "t" none ⟨"binding does not contain a type"⟩ rfl,
   C1_filter_unwraps_missing_type.2 [hashMapBinding "n" (fun _ => none)]⟩

/-- C2 counterexample: for the root "testdata/test.k8s", whose final
component contains a dot, `get_name` returns the stem "test", not the
full final component "test.k8s". -/
theorem C2_counterexample :
    ConfigTreeBinding.get_name ⟨["testdata", "test.k8s"]⟩ = some "test" ∧
    ConfigTreeBinding.get_name ⟨["testdata", "test.k8s"]⟩ ≠
      some "test.k8s" := by
  exact ⟨by decide, by decide⟩

/-- C2 (amended): `get_name` returns the file stem of the root's final
path component — the whole component when it has no dot (or only a
leading one), and the portion before the final dot otherwise, which then
differs from the basename. -/
theorem C2_get_name_is_file_stem (root : List String) (c : String)
    (h : root.getLast? = some c) :
    ConfigTreeBinding.get_name ⟨root⟩ = some (rustFileStem c)
    ∧ (lastDotIdx c.data = none → rustFileStem c = c)
    ∧ (∀ i, lastDotIdx c.data = some i → 0 < i → rustFileStem c ≠ c) := by
  refine ⟨?_, ?_, ?_⟩
  · simp [ConfigTreeBinding.get_name, h]
  · intro hnone
    rw [rustFileStem, hnone]
  · intro i hi hpos heq
    rw [rustFileStem, hi] at heq
    have hcase : String.mk (c.data.take i) = c := by
      cases i with
      | zero => exact absurd hpos (by simp)
      | succ j => exact heq
    have hd : c.data.take i = c.data := congrArg String.data hcase
    have hlt : i < c.data.length := lastDotIdx_lt_length c.data i hi
    have hlen := congrArg List.length hd
    rw [List.length_take] at hlen
    omega

/-- C2 witness: the amended statement evaluated at the dotted root. -/
theorem C2_witness :
    ConfigTreeBinding.get_name ⟨["testdata", "test.k8s"]⟩ =
      some (rustFileStem "test.k8s") ∧
    rustFileStem "test.k8s" = "test" :=
  ⟨(C2_get_name_is_file_stem ["testdata", "test.k8s"] "test.k8s"
      (by decide)).1,
   by decide⟩

/-- C3 counterexample: a root that exists and is a directory, with one
child directory whose name is not valid UTF-8 — discovery does not
return one binding per child directory, it panics. -/
theorem C3_counterexample :
    (RootFs.mk true true (some [some ⟨none, true⟩])).pathExists = true ∧
    (RootFs.mk true true (some [some ⟨none, true⟩])).isDir = true ∧
    bindingsFrom (RootFs.mk true true (some [some ⟨none, true⟩])) = none :=
  ⟨rfl, rfl, rfl⟩

/-- C3 (amended): a missing or non-directory root, or a failed directory
read, yields an empty sequence and never an error; otherwise — provided
every child directory's name is valid UTF-8 — discovery returns one
binding per direct child directory (non-directory and unreadable children
skipped), in order, named by the child's basename, and each binding is
backed by a placeholder empty store, so `get_as_bytes` is `None` at every
key. -/
theorem C3_discover_spec (fs : RootFs) :
    ((fs.pathExists = false ∨ fs.isDir = false) → bindingsFrom fs = some [])
    ∧ (fs.entries = none → bindingsFrom fs = some [])
    ∧ (∀ es, fs.pathExists = true → fs.isDir = true → fs.entries = some es →
        (∀ i, some i ∈ es → i.isDir = true → i.name ≠ none) →
        ∃ l, bindingsFrom fs = some l
          ∧ l.map Binding.get_name =
              es.filterMap
                (fun e => e.bind (fun i => if i.isDir then i.name else none))
          ∧ ∀ b ∈ l, ∀ key, b.get_as_bytes key = none) := by
  refine ⟨?_, ?_, ?_⟩
  · rintro (h | h) <;> simp [bindingsFrom, h]
  · intro h
    simp [bindingsFrom, h]
  · intro es hp hd he hall
    obtain ⟨l, hl, hmap, habs⟩ := collectChildren_spec es hall
    exact ⟨l, by simp [bindingsFrom, hp, hd, he, hl], hmap, habs⟩

/-- C3 witness: a root with one UTF-8-named child directory and one
non-directory child discovers exactly one placeholder binding. -/
theorem C3_witness :
    ∃ l, bindingsFrom
        (RootFs.mk true true
          (some [some ⟨some "test-name-1", true⟩,
                 some ⟨some "additional-file", false⟩])) = some l
      ∧ l.map Binding.get_name = ["test-name-1"]
      ∧ ∀ b ∈ l, ∀ key, b.get_as_bytes key = none := by
  obtain ⟨l, h1, h2, h3⟩ :=
    (C3_discover_spec
      (RootFs.mk true true
        (some [some ⟨some "test-name-1", true⟩,
               some ⟨some "additional-file", false⟩]))).2.2
      [some ⟨some "test-name-1", true⟩, some ⟨some "additional-file", false⟩]
      rfl rfl rfl
      (by
        intro i hi hd
        rcases List.mem_cons.mp hi with h | h
        · injection h with h
          subst h
          simp
        · rcases List.mem_cons.mp h with h | h
          · injection h with h
            subst h
            simp
          · cases h)
  exact ⟨l, h1, h2, h3⟩

/-- C10: discovery panics (the `to_str().unwrap()`) on an existing root
directory containing a subdirectory whose name is not valid UTF-8,
instead of skipping it or returning a partial sequence; it panics
whenever such a child is present, and is total when every child
directory's name is valid UTF-8. -/
theorem C10_discover_panics_on_non_utf8 :
    bindingsFrom
      (RootFs.mk true true
        (some [some ⟨none, true⟩, some ⟨some "other", true⟩])) = none
    ∧ (∀ (fs : RootFs) (es : List (Option DirEntryInfo)) (i : DirEntryInfo),
        fs.pathExists = true → fs.isDir = true → fs.entries = some es →
        some i ∈ es → i.isDir = true → i.name = none →
        bindingsFrom fs = none)
    ∧ (∀ (fs : RootFs) (es : List (Option DirEntryInfo)),
        fs.entries = some es →
        (∀ i, some i ∈ es → i.isDir = true → i.name ≠ none) →
        bindingsFrom fs ≠ none) := by
  refine ⟨rfl, ?_, ?_⟩
  · intro fs es i hp hd he hm hid hn
    have hc := collectChildren_none_of_bad es i hm hid hn
    simp [bindingsFrom, hp, hd, he, hc]
  · intro fs es he hall
    cases hpe : fs.pathExists with
    | false => simp [bindingsFrom, hpe]
    | true =>
      cases hid : fs.isDir with
      | false => simp [bindingsFrom, hpe, hid]
      | true =>
        obtain ⟨l, hl, -, -⟩ := collectChildren_spec es hall
        simp [bindingsFrom, hpe, hid, he, hl]

/-- C10 witness: the panic case and the totality case evaluated on
concrete roots. -/
theorem C10_witness :
    bindingsFrom (RootFs.mk true true (some [some ⟨none, true⟩])) = none ∧
    bindingsFrom
      (RootFs.mk true true (some [some ⟨some "test-name", true⟩])) ≠ none :=
  ⟨C10_discover_panics_on_non_utf8.2.1
      (RootFs.mk true true (some [some ⟨none, true⟩]))
      [some ⟨none, true⟩] ⟨none, true⟩ rfl rfl rfl
      (List.mem_cons_self _ _) rfl rfl,
   C10_discover_panics_on_non_utf8.2.2
      (RootFs.mk true true (some [some ⟨some "test-name", true⟩]))
      [some ⟨some "test-name", true⟩] rfl
      (by
        intro i hi hd
        rcases List.mem_cons.mp hi with h | h
        · injection h with h
          subst h
          simp
        · cases h)⟩

/-- C4: for a fixed key, once a cache call has received a present value
from the delegate, that call caches it and every later call for that key
— after any interleaved calls — returns that value without invoking the
delegate; and when the delegate reports the key absent, a call leaves the
cache unchanged and every call for that key across the cache's lifetime
(which starts empty) invokes the delegate again. -/
theorem C4_cache_delegate_once (d : Binding) (k : String) :
    (∀ (c : Cache) (v : ByteSeq),
        cacheLookup c k = none → d.get_as_bytes k = some v →
        cacheGetAsBytes d c k = (some v, (k, v) :: c, true)
        ∧ ∀ ks : List String,
            cacheGetAsBytes d (cacheRun d ((k, v) :: c) ks) k =
              (some v, cacheRun d ((k, v) :: c) ks, false))
    ∧ (d.get_as_bytes k = none → ∀ ks : List String,
        cacheGetAsBytes d (cacheRun d [] ks) k =
          (none, cacheRun d [] ks, true)) := by
  constructor
  · intro c v hl hd
    constructor
    · rw [cacheGetAsBytes, hl, hd]
    · intro ks
      have hv : cacheLookup ((k, v) :: c) k = some v := by
        simp [cacheLookup]
      have hrun := cacheLookup_run d ((k, v) :: c) ks k v hv
      rw [cacheGetAsBytes, hrun]
  · intro hd ks
    have hg := cacheGood_run d [] ks (cacheGood_empty d)
    have hnone : cacheLookup (cacheRun d [] ks) k = none := by
      cases hl : cacheLookup (cacheRun d [] ks) k with
      | none => rfl
      | some v =>
        have := hg k v hl
        rw [hd] at this
        cases this
    rw [cacheGetAsBytes, hnone, hd]

/-- C4 witness: with a stub delegate, a present key is fetched once and
then served from the cache even after an interleaved call, while a
missing key re-queries the delegate after any number of calls. -/
theorem C4_witness :
    cacheGetAsBytes stubDelegate [] "test-secret-key" =
      (some [1, 2], [("test-secret-key", [1, 2])], true) ∧
    cacheGetAsBytes stubDelegate
        (cacheRun stubDelegate [("test-secret-key", [1, 2])] ["other-key"])
        "test-secret-key" =
      (some [1, 2],
       cacheRun stubDelegate [("test-secret-key", [1, 2])] ["other-key"],
       false) ∧
    cacheGetAsBytes stubDelegate
        (cacheRun stubDelegate [] ["test-unknown-key"]) "test-unknown-key" =
      (none, cacheRun stubDelegate [] ["test-unknown-key"], true) :=
  ⟨((C4_cache_delegate_once stubDelegate "test-secret-key").1 [] [1, 2]
      rfl rfl).1,
   ((C4_cache_delegate_once stubDelegate "test-secret-key").1 [] [1, 2]
      rfl rfl).2 ["other-key"],
   (C4_cache_delegate_once stubDelegate "test-unknown-key").2 rfl
      ["test-unknown-key"]⟩
